import Mathlib

/-!
Shallow embedding of `petrinet-rs` (`src/lib.rs`), a Petri-net simulation
engine, together with proofs checking the natural-language specification
against it.

Modelling choices:

* A `Place` in the source holds `tokens: Cell<u32>` and is referenced from
  arcs through shared references.  Following the arena-and-index view of the
  same data, places are identified with indices into a *marking*
  `m : List Nat`, whose entry `m[p]` is the current value of place `p`'s
  token cell.  `tokens m p` is `Place::tokens()` for place `p`.
* All token arithmetic in the source is `u32` arithmetic.  It is embedded as
  arithmetic on `Nat` reduced modulo `U32 = 2^32`; in particular
  `Arc::consume_tokens` performs the wrapping subtraction that
  `self.place.tokens.get() - self.weight` denotes on `u32` values
  (the source contains no clamp and no explicit check).
* A transition's optional guard `expression: Option<Box<dyn Fn() -> bool>>`
  is a zero-argument, side-effect-free predicate by contract; its evaluation
  is embedded as the `Bool` it returns, stored in `Transition.expression`.
-/

/-- The modulus of `u32` arithmetic. -/
def U32 : Nat := 4294967296

/-- `Place::tokens()`: the current token count of place `p` in marking `m`. -/
def tokens (m : List Nat) (p : Nat) : Nat := (m[p]?).getD 0

/-- `Arc`: a weighted edge bound to one place (held by index). -/
structure Arc where
  weight : Nat
  place : Nat
  deriving DecidableEq, Repr

/-- `Arc::new(place, weight)`: fails when `weight < 1`, otherwise builds the
arc with the given weight, bound to the given place. -/
def Arc.new (place : Nat) (weight : Nat) : Except String Arc :=
  if weight < 1 then
    Except.error "weight must be greater 0"
  else
    Except.ok { weight := weight, place := place }

/-- `Arc::can_provide_required_tokens()`:
`self.place.tokens.get() >= self.weight`. -/
def can_provide_required_tokens (m : List Nat) (a : Arc) : Bool :=
  a.weight ≤ tokens m a.place

/-- `Arc::consume_tokens()`:
`self.place.tokens.set(self.place.tokens.get() - self.weight)` — a `u32`
subtraction, which wraps modulo `2^32` when the count is below the weight. -/
def consume_tokens (m : List Nat) (a : Arc) : List Nat :=
  m.set a.place ((tokens m a.place + (U32 - a.weight % U32)) % U32)

/-- `Arc::produce_tokens()`:
`self.place.tokens.set(self.place.tokens.get() + self.weight)` — a `u32`
addition, which wraps modulo `2^32`. -/
def produce_tokens (m : List Nat) (a : Arc) : List Nat :=
  m.set a.place ((tokens m a.place + a.weight) % U32)

/-- `Transition`: ordered input arcs, ordered output arcs, optional guard. -/
structure Transition where
  input_arcs : List Arc
  output_arcs : List Arc
  expression : Option Bool
  deriving DecidableEq, Repr

/-- `Transition::is_enabled()`: all input arcs can provide their tokens,
and, when a guard is present, the guard holds too. -/
def is_enabled (m : List Nat) (t : Transition) : Bool :=
  let all_arcs_enabled := t.input_arcs.all (fun a => can_provide_required_tokens m a)
  match t.expression with
  | some f => all_arcs_enabled && f
  | none => all_arcs_enabled

/-- `Transition::fire()`: the first loop consumes on every input arc in
order, the second loop then produces on every output arc in order. -/
def fire (m : List Nat) (t : Transition) : List Nat :=
  List.foldl produce_tokens (List.foldl consume_tokens m t.input_arcs) t.output_arcs

/-- `Petrinet::step()`: walk the transitions in registration order and fire
the first enabled one, then break out of the loop. -/
def step (transitions : List Transition) (m : List Nat) : List Nat :=
  match transitions with
  | [] => m
  | t :: rest => if is_enabled m t then fire m t else step rest m

/-- Iterated `Petrinet::step()`: `steps net m k` is the marking after `k`
successive `step()` calls starting from `m`. -/
def steps (transitions : List Transition) (m : List Nat) : Nat → List Nat
  | 0 => m
  | k + 1 => steps transitions (step transitions m) k

/-! ### Helper lemmas -/

/-- Consuming on an arc leaves every other place's count unchanged. -/
theorem tokens_consume_tokens_ne (m : List Nat) (a : Arc) (p : Nat)
    (h : a.place ≠ p) : tokens (consume_tokens m a) p = tokens m p := by
  simp [consume_tokens, tokens, List.getElem?_set_ne h]

/-- Producing on an arc leaves every other place's count unchanged. -/
theorem tokens_produce_tokens_ne (m : List Nat) (a : Arc) (p : Nat)
    (h : a.place ≠ p) : tokens (produce_tokens m a) p = tokens m p := by
  simp [produce_tokens, tokens, List.getElem?_set_ne h]

/-- The consumption loop leaves places untouched by any of its arcs
unchanged. -/
theorem tokens_foldl_consume_ne (as : List Arc) (m : List Nat) (p : Nat)
    (h : ∀ a ∈ as, a.place ≠ p) :
    tokens (List.foldl consume_tokens m as) p = tokens m p := by
  induction as generalizing m with
  | nil => rfl
  | cons a rest ih =>
    rw [List.foldl_cons, ih _ (fun b hb => h b (List.mem_cons_of_mem _ hb)),
      tokens_consume_tokens_ne _ _ _ (h a (List.mem_cons_self _ _))]

/-- The production loop leaves places untouched by any of its arcs
unchanged. -/
theorem tokens_foldl_produce_ne (as : List Arc) (m : List Nat) (p : Nat)
    (h : ∀ a ∈ as, a.place ≠ p) :
    tokens (List.foldl produce_tokens m as) p = tokens m p := by
  induction as generalizing m with
  | nil => rfl
  | cons a rest ih =>
    rw [List.foldl_cons, ih _ (fun b hb => h b (List.mem_cons_of_mem _ hb)),
      tokens_produce_tokens_ne _ _ _ (h a (List.mem_cons_self _ _))]

/-! ### Claims -/

/-- Claim C1: a single `step()` call iterates the transitions in
registration order and fires exactly the first one whose `is_enabled()` is
true, then stops, so at most one transition fires per step; when no
transition is enabled the marking is left unchanged (and the call is total,
so it cannot fail). -/
theorem step_fires_first_enabled (net : List Transition) (m : List Nat) :
    (step net m = match net.find? (fun t => is_enabled m t) with
      | some t => fire m t
      | none => m) ∧
    ((∀ t ∈ net, is_enabled m t = false) → step net m = m) := by
  constructor
  · induction net with
    | nil => rfl
    | cons t rest ih =>
      cases h : is_enabled m t
      · rw [step, List.find?_cons_of_neg _ (by simpa using h)]
        simpa [h] using ih
      · rw [step, List.find?_cons_of_pos _ (by simpa using h)]
        simp [h]
  · intro hall
    induction net with
    | nil => rfl
    | cons t rest ih =>
      rw [step, hall t (List.mem_cons_self _ _), if_neg (by simp)]
      exact ih (fun u hu => hall u (List.mem_cons_of_mem _ hu))

/-- Claim C1 witness: on a net whose only transition is disabled (it needs
one token from an empty place), a step leaves the marking unchanged. -/
theorem step_fires_first_enabled_witness :
    step [⟨[⟨1, 0⟩], [], none⟩] [0] = [0] :=
  (step_fires_first_enabled [⟨[⟨1, 0⟩], [], none⟩] [0]).2 (by decide)

/-- Claim C4: `is_enabled()` is the conjunction of
`can_provide_required_tokens()` over all input arcs with the guard's value
when a guard is present; `can_provide_required_tokens()` holds exactly when
the place holds at least `weight` tokens; and a transition with no input
arcs and no guard is enabled. -/
theorem is_enabled_spec (m : List Nat) (t : Transition) :
    (is_enabled m t =
      (t.input_arcs.all (fun a => can_provide_required_tokens m a) &&
        t.expression.getD true)) ∧
    (∀ a : Arc, can_provide_required_tokens m a =
      decide (tokens m a.place ≥ a.weight)) ∧
    (t.input_arcs = [] → t.expression = none → is_enabled m t = true) := by
  obtain ⟨ins, outs, e⟩ := t
  refine ⟨?_, fun a => rfl, ?_⟩
  · cases e <;> simp [is_enabled]
  · rintro rfl rfl
    rfl

/-- Claim C4 witness: a transition with no input arcs and no guard is
enabled on a concrete marking. -/
theorem is_enabled_spec_witness :
    is_enabled [5] ⟨[], [⟨1, 0⟩], none⟩ = true :=
  (is_enabled_spec [5] ⟨[], [⟨1, 0⟩], none⟩).2.2 rfl rfl

/-- Claim C5: `fire()` first runs the consumption loop over the input arcs
in insertion order, finishing all consumption before any production, then
runs the production loop over the output arcs in insertion order; it never
consults the guard or `is_enabled()` (firing a disabled transition still
mutates the marking, as the concrete disabled example shows). -/
theorem fire_consumes_then_produces (m : List Nat) (t : Transition) :
    (fire m t = List.foldl produce_tokens
      (List.foldl consume_tokens m t.input_arcs) t.output_arcs) ∧
    (∀ e : Option Bool, fire m { t with expression := e } = fire m t) ∧
    (is_enabled [0] ⟨[⟨1, 0⟩], [], none⟩ = false ∧
      fire [0] ⟨[⟨1, 0⟩], [], none⟩ = [4294967295]) := by
  exact ⟨rfl, fun e => rfl, by decide⟩

/-- Claim C6: `Arc::new(place, weight)` fails with the invalid-weight error
exactly when `weight < 1`, and for `weight >= 1` it returns an arc bound to
the given place with the given weight. -/
theorem arc_new_spec (place weight : Nat) :
    ((∃ a, Arc.new place weight = Except.ok a) ↔ 1 ≤ weight) ∧
    (weight < 1 → Arc.new place weight = Except.error "weight must be greater 0") ∧
    (1 ≤ weight → Arc.new place weight = Except.ok ⟨weight, place⟩) := by
  by_cases h : weight < 1
  · refine ⟨⟨?_, ?_⟩, fun _ => ?_, fun h1 => absurd h1 (by omega)⟩
    · rintro ⟨a, ha⟩
      rw [Arc.new, if_pos h] at ha
      exact absurd ha (by simp)
    · intro h1
      exact absurd h1 (by omega)
    · rw [Arc.new, if_pos h]
  · refine ⟨⟨fun _ => by omega, fun _ => ⟨⟨weight, place⟩, ?_⟩⟩,
      fun h1 => absurd h1 h, fun _ => ?_⟩
    · rw [Arc.new, if_neg h]
    · rw [Arc.new, if_neg h]

/-- Claim C6 witness: weight 0 is rejected with the invalid-weight error and
weight 2 yields the arc with weight 2 bound to place 7. -/
theorem arc_new_spec_witness :
    Arc.new 7 0 = Except.error "weight must be greater 0" ∧
    Arc.new 7 2 = Except.ok ⟨2, 7⟩ :=
  ⟨(arc_new_spec 7 0).2.1 (by decide), (arc_new_spec 7 2).2.2 (by decide)⟩

/-- The Wikipedia "detailed example" net: places P1..P4 are indices 0..3,
transition T1 consumes 1 from P1 and produces 1 into P2 and 1 into P3,
transition T2 consumes 1 from P2 and 1 from P3 and produces 1 into P4 and
1 into P1; T1 is registered before T2. -/
def wiki_net : List Transition :=
  [⟨[⟨1, 0⟩], [⟨1, 1⟩, ⟨1, 2⟩], none⟩,
   ⟨[⟨1, 1⟩, ⟨1, 2⟩], [⟨1, 3⟩, ⟨1, 0⟩], none⟩]

/-- Claim C7: on the Wikipedia example net started at P1=1, P2=0, P3=2,
P4=1, the marking is P1=0, P2=1, P3=3, P4=1 after one step, P1=1, P2=0,
P3=2, P4=2 after two steps, and P4=3 after two further steps. -/
theorem wiki_net_trajectory :
    steps wiki_net [1, 0, 2, 1] 1 = [0, 1, 3, 1] ∧
    steps wiki_net [1, 0, 2, 1] 2 = [1, 0, 2, 2] ∧
    steps wiki_net [1, 0, 2, 1] 4 = [1, 0, 2, 3] := by
  decide

/-- Underflow-freedom of the consumption loop: each arc, at its turn, finds
at least its weight on its place (so `u32` subtraction never wraps). -/
def consume_safe (m : List Nat) : List Arc → Bool
  | [] => true
  | a :: rest => can_provide_required_tokens m a && consume_safe (consume_tokens m a) rest

/-- Underflow-freedom of one `step()` call: if a transition fires, its
consumption loop is underflow-free. -/
def step_safe (transitions : List Transition) (m : List Nat) : Bool :=
  match transitions with
  | [] => true
  | t :: rest => if is_enabled m t then consume_safe m t.input_arcs else step_safe rest m

/-- Underflow-freedom of `k` successive `step()` calls. -/
def steps_safe (transitions : List Transition) (m : List Nat) : Nat → Bool
  | 0 => true
  | k + 1 => step_safe transitions m && steps_safe transitions (step transitions m) k

/-- An enabled transition has every input arc individually satisfied. -/
theorem all_can_provide_of_is_enabled (m : List Nat) (t : Transition)
    (h : is_enabled m t = true) :
    ∀ a ∈ t.input_arcs, can_provide_required_tokens m a = true := by
  intro a ha
  obtain ⟨ins, outs, e⟩ := t
  cases e with
  | none =>
    simp only [is_enabled, List.all_eq_true] at h
    exact h a ha
  | some f =>
    simp only [is_enabled, Bool.and_eq_true, List.all_eq_true] at h
    exact h.1 a ha

/-- When the input arcs reference pairwise distinct places, individual
satisfaction of every arc makes the whole consumption loop underflow-free. -/
theorem consume_safe_of_can_provide (as : List Arc) (m : List Nat)
    (hall : ∀ a ∈ as, can_provide_required_tokens m a = true)
    (hnd : (as.map Arc.place).Nodup) :
    consume_safe m as = true := by
  induction as generalizing m with
  | nil => rfl
  | cons a rest ih =>
    have hnd' : (∀ b ∈ rest, ¬ b.place = a.place) ∧ (rest.map Arc.place).Nodup := by
      simpa using hnd
    rw [consume_safe, hall a (List.mem_cons_self _ _), Bool.true_and]
    refine ih (consume_tokens m a) (fun b hb => ?_) hnd'.2
    have hne : a.place ≠ b.place := fun e => hnd'.1 b hb e.symm
    rw [can_provide_required_tokens, tokens_consume_tokens_ne m a b.place hne]
    exact hall b (List.mem_cons_of_mem _ hb)

/-- A single step over transitions whose input arcs reference pairwise
distinct places never underflows. -/
theorem step_safe_of_distinct (net : List Transition) (m : List Nat)
    (hd : ∀ t ∈ net, (t.input_arcs.map Arc.place).Nodup) :
    step_safe net m = true := by
  induction net with
  | nil => rfl
  | cons t rest ih =>
    rw [step_safe]
    cases h : is_enabled m t
    · rw [if_neg (by simp)]
      exact ih (fun u hu => hd u (List.mem_cons_of_mem _ hu))
    · rw [if_pos rfl]
      exact consume_safe_of_can_provide _ _
        (all_can_provide_of_is_enabled m t h) (hd t (List.mem_cons_self _ _))

/-- Claim C2 counterexample: one transition holding two weight-1 input arcs
on the same place, which holds a single token, is enabled (each arc is
checked against the untouched count), and one `step()` underflows: the
`u32` count wraps to `2^32 - 1`, far above the one token the net ever held,
i.e. the mathematical count was driven below zero. -/
theorem step_underflows_duplicate_arcs :
    is_enabled [1] ⟨[⟨1, 0⟩, ⟨1, 0⟩], [], none⟩ = true ∧
    step_safe [⟨[⟨1, 0⟩, ⟨1, 0⟩], [], none⟩] [1] = false ∧
    step [⟨[⟨1, 0⟩, ⟨1, 0⟩], [], none⟩] [1] = [4294967295] ∧
    ¬ (4294967295 ≤ 1) := by
  decide

/-- Claim C2 (amended): provided every transition's input arcs reference
pairwise distinct places, any finite sequence of `step()` calls is
underflow-free — every `u32` subtraction performed finds at least the arc's
weight on the place, so no count is driven below zero.  (With duplicate
input arcs on one place the guarantee fails, as the counterexample shows.) -/
theorem steps_safe_of_distinct_inputs (net : List Transition) (m : List Nat)
    (k : Nat) (hd : ∀ t ∈ net, (t.input_arcs.map Arc.place).Nodup) :
    steps_safe net m k = true := by
  induction k generalizing m with
  | zero => rfl
  | succ k ih =>
    rw [steps_safe, step_safe_of_distinct net m hd, Bool.true_and]
    exact ih (step net m)

/-- Claim C2 witness: four steps of a two-place net with distinct input
places are underflow-free. -/
theorem steps_safe_of_distinct_inputs_witness :
    steps_safe [⟨[⟨1, 0⟩], [⟨1, 1⟩], none⟩] [2, 0] 4 = true :=
  steps_safe_of_distinct_inputs [⟨[⟨1, 0⟩], [⟨1, 1⟩], none⟩] [2, 0] 4 (by decide)

/-- Claim C3 counterexample: consuming weight 1 from a place holding 0
tokens neither clamps the count at zero nor fails: `consume_tokens` is
total and silently wraps the `u32` count to `2^32 - 1`. -/
theorem consume_tokens_unguarded :
    consume_tokens [0] ⟨1, 0⟩ = [4294967295] ∧
    consume_tokens [0] ⟨1, 0⟩ ≠ [0] := by
  decide

/-- Claim C3 (amended): `consume_tokens()` is not guarded: when the place
holds fewer tokens than the weight it subtracts anyway and the `u32` count
silently wraps to `tokens + 2^32 - weight`; no clamp at zero and no explicit
assertion exist in the code. -/
theorem consume_tokens_wraps (m : List Nat) (a : Arc)
    (hp : a.place < m.length) (hw : a.weight < U32)
    (hlt : tokens m a.place < a.weight) :
    tokens (consume_tokens m a) a.place = tokens m a.place + U32 - a.weight := by
  have hmod : (tokens m a.place + (U32 - a.weight % U32)) % U32
      = tokens m a.place + U32 - a.weight := by
    rw [Nat.mod_eq_of_lt hw, Nat.mod_eq_of_lt (by omega)]
    omega
  rw [consume_tokens, hmod, tokens, List.getElem?_set_eq_of_lt _ (by simpa using hp)]
  rfl

/-- Claim C3 witness: consuming weight 1 from a place holding 0 tokens
wraps the count to `0 + 2^32 - 1`. -/
theorem consume_tokens_wraps_witness :
    tokens (consume_tokens [0] ⟨1, 0⟩) 0 = 0 + U32 - 1 :=
  consume_tokens_wraps [0] ⟨1, 0⟩ (by decide) (by decide) (by decide)

/-- Claim C8 counterexample: a place already holding `2^32 - 1` tokens does
not keep increasing under `produce_tokens`: the `u32` count wraps to 0, so
growth is bounded by the machine word. -/
theorem produce_tokens_wraps_at_bound :
    tokens (produce_tokens [4294967295] ⟨1, 0⟩) 0 = 0 ∧
    ¬ tokens [4294967295] 0 < tokens (produce_tokens [4294967295] ⟨1, 0⟩) 0 := by
  decide

/-- Claim C8 (amended): `produce_tokens()` adds the arc's weight to the
place's count modulo `2^32`; there is no capacity cap below the machine
bound — whenever the sum stays below `2^32` the count grows by exactly the
weight, hence strictly (weights are at least 1) — but at `2^32` the `u32`
count wraps, so it does not increase without limit. -/
theorem produce_tokens_adds_weight (m : List Nat) (a : Arc)
    (hp : a.place < m.length) (hb : tokens m a.place + a.weight < U32) :
    tokens (produce_tokens m a) a.place = tokens m a.place + a.weight ∧
    (1 ≤ a.weight → tokens m a.place < tokens (produce_tokens m a) a.place) := by
  have heq : tokens (produce_tokens m a) a.place = tokens m a.place + a.weight := by
    rw [produce_tokens, Nat.mod_eq_of_lt hb, tokens,
      List.getElem?_set_eq_of_lt _ (by simpa using hp)]
    rfl
  exact ⟨heq, fun hw => by omega⟩

/-- Claim C8 witness: producing weight 3 on a place holding 5 tokens
strictly increases the count. -/
theorem produce_tokens_adds_weight_witness :
    5 < tokens (produce_tokens [5] ⟨3, 0⟩) 0 :=
  (produce_tokens_adds_weight [5] ⟨3, 0⟩ (by decide) (by decide)).2 (by decide)

/-- Modelled from the spec: the body of `RandomTransitionScheduler::schedule`
is missing from the source (it is only declared, with a body of
`todo!("implement schedule")`).  The spec's contract — given the enabled
transitions, return the index of exactly one chosen transition, always
choosing when the input is non-empty, with uniform random choice as the
baseline policy — is modelled by drawing uniformly from a random source
`rand` via `rand % enabled.length`; on an empty set there is no index. -/
def schedule (rand : Nat) (enabled : List Transition) : Option Nat :=
  match enabled with
  | [] => none
  | _ :: _ => some (rand % enabled.length)

/-- Claim C9: on every non-empty set of enabled transitions, `schedule`
returns (without failing) exactly one index, and that index lies within the
set. -/
theorem schedule_returns_index_in_set (rand : Nat) (enabled : List Transition)
    (h : enabled ≠ []) :
    ∃ i, schedule rand enabled = some i ∧ i < enabled.length := by
  match enabled with
  | [] => exact absurd rfl h
  | t :: rest =>
    exact ⟨rand % (t :: rest).length, rfl, Nat.mod_lt _ (Nat.succ_pos _)⟩

/-- Claim C9 witness: on a one-element set of transitions the scheduler
returns an index within the set. -/
theorem schedule_returns_index_in_set_witness :
    ∃ i, schedule 7 [⟨[], [], none⟩] = some i ∧
      i < List.length [(⟨[], [], none⟩ : Transition)] :=
  schedule_returns_index_in_set 7 [⟨[], [], none⟩] (by simp)

/-- Claim C10: `fire()` only changes the counts of places referenced by the
transition's own input or output arcs; every other place keeps its count. -/
theorem fire_frame (m : List Nat) (t : Transition) (p : Nat)
    (hin : ∀ a ∈ t.input_arcs, a.place ≠ p)
    (hout : ∀ a ∈ t.output_arcs, a.place ≠ p) :
    tokens (fire m t) p = tokens m p := by
  rw [fire, tokens_foldl_produce_ne _ _ _ hout, tokens_foldl_consume_ne _ _ _ hin]

/-- Claim C10 witness: firing a transition touching places 0 and 1 leaves
place 2 unchanged. -/
theorem fire_frame_witness :
    tokens (fire [5, 5, 7] ⟨[⟨1, 0⟩], [⟨2, 1⟩], none⟩) 2 = tokens [5, 5, 7] 2 :=
  fire_frame [5, 5, 7] ⟨[⟨1, 0⟩], [⟨2, 1⟩], none⟩ 2 (by decide) (by decide)
